import Mathlib

/-!
# Shallow embedding of the HTM spatial pooler (src/src/lib.rs)

This file embeds the Rust crate's `HTMLayer` / `Column` data model and the
operations `new`, `spatial_pooling_output`, `spatial_pooling_learning`,
`neighbors`, `update_active_duty_cycle` and `update_overlap_duty_cycle`,
and proves properties of them.

Modelling conventions:

* `f32` is modelled as `ℚ`.  On every value the program actually produces in
  the theorems below the `f32` operations are exact rational operations, with
  one exception: when a column's neighbor list is empty the Rust program
  computes `0.0 / 0.0 = NaN` as the neighborhood's mean duty cycle and the
  comparison `adc >= NaN` is false, so the boost is decremented.  The
  embedding reproduces exactly that behaviour with an explicit emptiness test
  (see `boost_and_rescue`), so no NaN value is ever needed.
* `usize` is modelled as `ℕ`.  The single place where the program casts a
  possibly-negative `i32` to `usize` (`cmp::min(0, i - potential_radius) as
  usize` in `new`) is modelled by the exact two's-complement wrap `+ 2^64`.
  The other `as i32` casts (in `neighbors` and the kth-score index) cannot
  change a value for any list that fits in memory; they are modelled as exact
  integer arithmetic on `ℤ`.
* A Rust panic (out-of-bounds index into the input bit vector, out-of-bounds
  `local_overlap[idx]` when `num_active_columns_per_inhibition_area = 0`,
  the failed `assert!` in `new`, division by zero when `COLUMNS = 0`) is
  modelled as `none`.  `period : NonZeroU32` makes a zero period
  unrepresentable in Rust; the embedding keeps `period : ℕ` and lets `new`
  reject `period = 0` together with the assert.
* In `spatial_pooling_learning` both permanence loops are written
  `for (_, mut p) in &mut self.columns[i].connected_synapses { ... }`.
  The explicit `mut p` binder resets the match binding mode to by-value, so
  `p` is a *copy* of the stored `f32`; the loop body mutates the copy and the
  vector entry is never written back.  The embedding therefore leaves
  `connected_synapses` unchanged in the learning step; the computation the
  loop performs on its local copy is recorded separately (`hebbian_local`,
  `rescue_local`) for reference.
-/

namespace HTM

/-- A cortical column (struct `Column` in lib.rs):
synapses as `(input_bit_index, permanence)` pairs, a boost factor and the
two duty cycles. -/
structure Column where
  connected_synapses : List (ℕ × ℚ)
  boost : ℚ
  active_duty_cycle : ℚ
  overlap_duty_cycle : ℚ
  deriving DecidableEq, Inhabited

/-- The HTM layer (struct `HTMLayer<const COLUMNS: usize>` in lib.rs).
The const generic `COLUMNS` is `columns.length`. -/
structure HTMLayer where
  input_length : ℕ
  num_active_columns_per_inhibition_area : ℕ
  inhibition_radius : ℕ
  columns : List Column
  potential_radius : ℕ
  permanence_threshold : ℚ
  permanence_increment : ℚ
  permanence_decrement : ℚ
  stimulus_threshold : ℚ
  period : ℕ
  min_overlap_duty_cycle : ℚ
  deriving DecidableEq, Inhabited

/-- `min = cmp::min(0, i as i32 - potential_radius as i32) as usize`
(lib.rs line 65): the minimum is `0` when `i ≥ potential_radius`, and
otherwise the negative difference, whose cast to `usize` wraps modulo
`2^64`. -/
def poolMinIdx (potential_radius i : ℕ) : ℕ :=
  if (i : ℤ) - (potential_radius : ℤ) < 0 then
    ((i : ℤ) - (potential_radius : ℤ) + 2 ^ 64).toNat
  else 0

/-- `max = cmp::max(i + potential_radius, input_length)` (lib.rs line 66). -/
def poolMaxIdx (input_length potential_radius i : ℕ) : ℕ :=
  max (i + potential_radius) input_length

/-- One column as built by `HTMLayer::new` (lib.rs lines 64-79), for the
already rescaled `potential_radius`: the synapse list is the Rust range
`(min..max)` zipped with `potential_radius` copies of the permanence `0.5`;
boost starts at `10.0`, both duty cycles at `0`. -/
def mkColumn (input_length potential_radius i : ℕ) : Column :=
  { connected_synapses :=
      (List.range' (poolMinIdx potential_radius i)
          (poolMaxIdx input_length potential_radius i - poolMinIdx potential_radius i)).zip
        (List.replicate potential_radius (1 / 2 : ℚ)),
    boost := 10,
    active_duty_cycle := 0,
    overlap_duty_cycle := 0 }

/-- `HTMLayer::new` (lib.rs lines 42-98).  `none` models a construction from
which no pooler results: the failed `assert!(inhibition_radius >
num_active_columns_per_inhibition_area)`, a `period` of `0` (unrepresentable
in Rust thanks to `NonZeroU32`), or `COLUMNS = 0` (the division
`potential_radius * input_length / COLUMNS` would panic).
`potential_radius` is first rescaled to `potential_radius * input_length /
COLUMNS` (integer division), exactly as in the source. -/
def HTMLayer.new (COLUMNS input_length nacpia inhibition_radius potential_radius : ℕ)
    (permanence_threshold permanence_increment permanence_decrement stimulus_threshold : ℚ)
    (period : ℕ) (min_overlap_duty_cycle : ℚ) : Option HTMLayer :=
  if nacpia < inhibition_radius ∧ 1 ≤ period ∧ 0 < COLUMNS then
    let pr := potential_radius * input_length / COLUMNS
    some
      { input_length := input_length,
        num_active_columns_per_inhibition_area := nacpia,
        inhibition_radius := inhibition_radius,
        columns := (List.range COLUMNS).map (mkColumn input_length pr),
        potential_radius := pr,
        permanence_threshold := permanence_threshold,
        permanence_increment := permanence_increment,
        permanence_decrement := permanence_decrement,
        stimulus_threshold := stimulus_threshold,
        period := period,
        min_overlap_duty_cycle := min_overlap_duty_cycle }
  else none

/-- `HTMLayer::neighbors` (lib.rs lines 202-217): `rng_min` is `i -
inhibition_radius` truncated at `0`, `rng_max` is `i + inhibition_radius`
capped at `COLUMNS - 1`, and the result is the Rust range `(rng_min..i)`
followed by `(i+1..rng_max)` — both half-open, so `rng_max` itself is
*excluded*. -/
def HTMLayer.neighbors (L : HTMLayer) (i : ℕ) : List ℕ :=
  let C := L.columns.length
  let rng_min := if i < L.inhibition_radius then 0 else i - L.inhibition_radius
  let rng_max := if C ≤ i + L.inhibition_radius then C - 1 else i + L.inhibition_radius
  List.range' rng_min (i - rng_min) ++ List.range' (i + 1) (rng_max - (i + 1))

/-- `mapOpt f l` threads a possibly-failing `f` through a list; it is the
shape of every Rust loop that may panic (`none` = panic, reached iff `f`
fails on some element). -/
def mapOpt {α β : Type} (f : α → Option β) : List α → Option (List β)
  | [] => some []
  | a :: l =>
    match f a, mapOpt f l with
    | some b, some bs => some (b :: bs)
    | _, _ => none

/-- One column's overlap score (lib.rs lines 103-109): count the synapses
whose referenced input bit is on, then multiply by the column's boost.
`input.get? idx = none` models the panic of `input[idx]` on an out-of-range
index. -/
def columnOverlap (input : List Bool) (c : Column) : Option ℚ :=
  (mapOpt (fun s => input.get? s.1) c.connected_synapses).map
    (fun bits => ((bits.countP (fun b => b) : ℕ) : ℚ) * c.boost)

/-- Overlap scores of all columns (the first loop of
`spatial_pooling_output`, lib.rs lines 102-109). -/
def overlapVec (L : HTMLayer) (input : List Bool) : Option (List ℚ) :=
  mapOpt (columnOverlap input) L.columns

/-- The strictly positive overlap scores of `i`'s neighborhood, in neighbor
order (lib.rs lines 118-119).  Neighbor indices are always in range, so the
`getD` default is never used. -/
def localOverlapOf (L : HTMLayer) (overlap : List ℚ) (i : ℕ) : List ℚ :=
  ((L.neighbors i).map (fun j => overlap.getD j 0)).filter (fun x => decide (0 < x))

/-- `min_local_activity` / kthScore (lib.rs lines 114-131): sort the positive
neighborhood scores ascending; answer `0` if there are none, the smallest one
if there are fewer than `k` of them, and otherwise the entry at index
`max 0 (len - k)` (as `i32` arithmetic, exact here), i.e. the `k`-th largest.
When `k = 0` and the list is non-empty the index equals `len` and the Rust
program panics with an out-of-bounds access: `get?` returns `none` there. -/
def min_local_activity (k : ℕ) (local_overlap : List ℚ) : Option ℚ :=
  let sorted := local_overlap.insertionSort (fun a b => a ≤ b)
  if local_overlap.length = 0 then some 0
  else if local_overlap.length < k then sorted.get? 0
  else sorted.get? (Int.toNat (max 0 ((local_overlap.length : ℤ) - (k : ℤ))))

/-- Whether column `i` wins the inhibition (lib.rs line 133): both
comparisons strict, `overlap[i] > stimulus_threshold` and `overlap[i] >
min_local_activity`. -/
def activeFlag (L : HTMLayer) (overlap : List ℚ) (i : ℕ) : Option Bool :=
  (min_local_activity L.num_active_columns_per_inhibition_area (localOverlapOf L overlap i)).map
    (fun m => decide (L.stimulus_threshold < overlap.getD i 0 ∧ m < overlap.getD i 0))

/-- The inhibition loop (lib.rs lines 112-138), producing one boolean per
column. -/
def activeColumns (L : HTMLayer) (overlap : List ℚ) : Option (List Bool) :=
  mapOpt (activeFlag L overlap) (List.range L.columns.length)

/-- Map with the element's index, starting at `i0`; the shape of the Rust
`for i in 0..COLUMNS` update loops. -/
def mapWithIndex {α β : Type} (f : ℕ → α → β) : ℕ → List α → List β
  | _, [] => []
  | i, a :: l => f i a :: mapWithIndex f (i + 1) l

/-- `HTMLayer::update_active_duty_cycle` (lib.rs lines 219-223):
`adc ← (adc * (period - 1) + bit) / period` with the output bit as `0`/`1`.
`active_columns` always has one entry per column when called. -/
def HTMLayer.update_active_duty_cycle (L : HTMLayer) (active_columns : List Bool) : HTMLayer :=
  { L with
    columns :=
      mapWithIndex
        (fun i c =>
          { c with
            active_duty_cycle :=
              (c.active_duty_cycle * ((L.period - 1 : ℕ) : ℚ) +
                  (if active_columns.getD i false then 1 else 0)) /
                (L.period : ℚ) })
        0 L.columns }

/-- `HTMLayer::update_overlap_duty_cycle` (lib.rs lines 225-229):
`odc ← (odc * (period - 1) + overlap[i]) / period`, using the raw
boost-multiplied overlap score. -/
def HTMLayer.update_overlap_duty_cycle (L : HTMLayer) (overlap : List ℚ) : HTMLayer :=
  { L with
    columns :=
      mapWithIndex
        (fun i c =>
          { c with
            overlap_duty_cycle :=
              (c.overlap_duty_cycle * ((L.period - 1 : ℕ) : ℚ) + overlap.getD i 0) /
                (L.period : ℚ) })
        0 L.columns }

/-- What the Hebbian loop body (lib.rs lines 158-170) computes on its local
copy of a permanence, for an active column's synapse.  Note the source tests
`p > permanence_threshold` (never the input bit) and its clamps are
inverted (`if p < 1 { p = 1 }` after incrementing, `if p > 1 { p = 1 }`
after decrementing); the result is discarded anyway because `mut p` is a
by-value copy. -/
def hebbian_local (L : HTMLayer) (p : ℚ) : ℚ :=
  if L.permanence_threshold < p then
    let q := p + L.permanence_increment
    if q < 1 then 1 else q
  else
    let q := p - L.permanence_decrement
    if 1 < q then 1 else q

/-- What the rescue loop body (lib.rs lines 195-197) computes on its local
copy of a permanence: an unclamped increment, likewise discarded because of
the by-value binding. -/
def rescue_local (L : HTMLayer) (p : ℚ) : ℚ :=
  p + L.permanence_increment

/-- The boost/rescue loop (lib.rs lines 177-199), run over *all* column
indices.  The mean of the neighbors' (already updated) active duty cycles is
`sum / len`; when the neighbor list is empty Rust computes `0.0/0.0 = NaN`
and `adc >= NaN` is false, so the boost is decremented — the embedding tests
emptiness explicitly to reproduce that.  Only `boost` changes: the rescue
loop's permanence writes go to a by-value copy (see `rescue_local`), so
`connected_synapses` is left as is. -/
def boost_and_rescue (L : HTMLayer) : HTMLayer :=
  { L with
    columns :=
      mapWithIndex
        (fun i c =>
          let nbrs := L.neighbors i
          let mean :=
            (nbrs.map (fun j => (L.columns.getD j default).active_duty_cycle)).sum /
              (nbrs.length : ℚ)
          { c with
            boost :=
              if nbrs = [] then c.boost - 1
              else if mean ≤ c.active_duty_cycle then c.boost + 1
              else c.boost - 1 })
        0 L.columns }

/-- `HTMLayer::spatial_pooling_learning` (lib.rs lines 145-200).  In source
order: the Hebbian loop over active columns (no observable effect — by-value
copies, see `hebbian_local`), then `update_active_duty_cycle`,
`update_overlap_duty_cycle`, and the boost/rescue loop. -/
def HTMLayer.spatial_pooling_learning (L : HTMLayer) (sp_output : List Bool)
    (overlap : List ℚ) : HTMLayer :=
  boost_and_rescue
    ((L.update_active_duty_cycle sp_output).update_overlap_duty_cycle overlap)

/-- `HTMLayer::spatial_pooling_output` (lib.rs lines 100-143): compute the
overlap scores (may panic → `none`), run the inhibition (may panic when
`num_active_columns_per_inhibition_area = 0` → `none`), then the learning
step, returning the active-column bit vector and the updated layer. -/
def HTMLayer.spatial_pooling_output (L : HTMLayer) (input : List Bool) :
    Option (List Bool × HTMLayer) :=
  (overlapVec L input).bind fun overlap =>
    (activeColumns L overlap).map fun acts =>
      (acts, L.spatial_pooling_learning acts overlap)

/-- Run a finite sequence of `spatial_pooling_output` calls, keeping only the
evolving state; `none` as soon as one call panics. -/
def runSeq (L : HTMLayer) : List (List Bool) → Option HTMLayer
  | [] => some L
  | input :: rest =>
    match L.spatial_pooling_output input with
    | none => none
    | some r => runSeq r.2 rest

/-- Modelled from the spec's words for claim C8: the `k`-th largest of a list
of scores is the entry at position `k` of the descending sort. -/
def kthLargest (k : ℕ) (scores : List ℚ) : ℚ :=
  (scores.insertionSort (fun a b => b ≤ a)).getD (k - 1) 0

/-- Modelled from the spec's words for claim C8: the local inhibition
threshold is the `k`-th largest of the strictly positive neighborhood
scores, falling back to the smallest positive score (the last entry of the
descending sort) when fewer than `k` are positive, and to `0` when none are
positive. -/
def specLocalThreshold (k : ℕ) (pos_scores : List ℚ) : ℚ :=
  if pos_scores.length = 0 then 0
  else if pos_scores.length < k then
    (pos_scores.insertionSort (fun a b => b ≤ a)).getD (pos_scores.length - 1) 0
  else kthLargest k pos_scores

/-- The claimed range invariant that actually holds on reachable states:
every stored permanence and every active duty cycle lies in `[0, 1]`. -/
def unitInv (L : HTMLayer) : Prop :=
  ∀ c ∈ L.columns,
    (∀ s ∈ c.connected_synapses, 0 ≤ s.2 ∧ s.2 ≤ 1) ∧
      0 ≤ c.active_duty_cycle ∧ c.active_duty_cycle ≤ 1

/-- What claim C7 can still say about one freshly constructed column:
boost `10`, zero duty cycles, and a pool that is empty for `i <
potential_radius` (the wrapped cast empties the range) and otherwise the
deterministic consecutive indices `0, …, potential_radius - 1`, each with
permanence `0.5`. -/
def initColumnSpec (L : HTMLayer) (i : ℕ) : Prop :=
  (L.columns.getD i default).boost = 10 ∧
  (L.columns.getD i default).active_duty_cycle = 0 ∧
  (L.columns.getD i default).overlap_duty_cycle = 0 ∧
  (i < L.potential_radius → (L.columns.getD i default).connected_synapses = []) ∧
  (L.potential_radius ≤ i →
    (L.columns.getD i default).connected_synapses.length = L.potential_radius ∧
      ∀ j < L.potential_radius,
        (L.columns.getD i default).connected_synapses.getD j (0, 0) = (j, 1 / 2))

/-! ## Concrete layers for the witnesses and counterexamples -/

/-- Three columns; only column 0 has a synapse, pointing at input bit 0. -/
def layerC1 : HTMLayer :=
  { input_length := 1, num_active_columns_per_inhibition_area := 1,
    inhibition_radius := 2,
    columns := [⟨[(0, 1/2)], 1, 0, 0⟩, ⟨[], 1, 0, 0⟩, ⟨[], 1, 0, 0⟩],
    potential_radius := 0,
    permanence_threshold := 0, permanence_increment := 1/4, permanence_decrement := 1/8,
    stimulus_threshold := 0, period := 1, min_overlap_duty_cycle := -1 }

/-- Three columns; column 0 watches input bits 0 and 1. -/
def layerC2 : HTMLayer :=
  { input_length := 2, num_active_columns_per_inhibition_area := 1,
    inhibition_radius := 2,
    columns := [⟨[(0, 1/2), (1, 1/2)], 1, 0, 0⟩, ⟨[], 1, 0, 0⟩, ⟨[], 1, 0, 0⟩],
    potential_radius := 0,
    permanence_threshold := 0, permanence_increment := 1/4, permanence_decrement := 1/8,
    stimulus_threshold := 0, period := 1, min_overlap_duty_cycle := -1 }

/-- Like `layerC1` but with `min_overlap_duty_cycle = 100`, so every
column's overlap duty cycle is below it at the homeostasis step. -/
def layerC3 : HTMLayer :=
  { input_length := 1, num_active_columns_per_inhibition_area := 1,
    inhibition_radius := 2,
    columns := [⟨[(0, 1/2)], 1, 0, 0⟩, ⟨[], 1, 0, 0⟩, ⟨[], 1, 0, 0⟩],
    potential_radius := 0,
    permanence_threshold := 0, permanence_increment := 1/4, permanence_decrement := 1/8,
    stimulus_threshold := 0, period := 1, min_overlap_duty_cycle := 100 }

/-- The layer of the pooler constructed with `new 3 3 1 2 2 …` (period 1),
used to exercise reachable-state claims. -/
def layerC4 : HTMLayer :=
  (HTMLayer.new 3 3 1 2 2 0 (1/4) (1/8) 0 1 (-1)).getD default

/-- `layerC4` after one compute call on the all-ones input. -/
def layerC4after : HTMLayer :=
  (runSeq layerC4 [[true, true, true]]).getD default

/-- A layer whose configured `input_length` is 1, fed length-2 inputs. -/
def layerC6 : HTMLayer :=
  { input_length := 1, num_active_columns_per_inhibition_area := 1,
    inhibition_radius := 2,
    columns := [⟨[(0, 1/2)], 1, 0, 0⟩, ⟨[], 1, 0, 0⟩, ⟨[], 1, 0, 0⟩],
    potential_radius := 0,
    permanence_threshold := 0, permanence_increment := 1/4, permanence_decrement := 1/8,
    stimulus_threshold := 0, period := 1, min_overlap_duty_cycle := -1 }

/-- A freshly constructed pooler for the C7 witness (same parameters as
`layerC4`). -/
def layerC7 : HTMLayer :=
  (HTMLayer.new 3 3 1 2 2 0 (1/4) (1/8) 0 1 (-1)).getD default

/-- Three columns with overlaps (1, 2, 0) on the input `[true]`. -/
def layerC8 : HTMLayer :=
  { input_length := 1, num_active_columns_per_inhibition_area := 1,
    inhibition_radius := 2,
    columns := [⟨[(0, 1/2)], 1, 0, 0⟩, ⟨[(0, 1/2), (0, 1/2)], 1, 0, 0⟩, ⟨[], 1, 0, 0⟩],
    potential_radius := 0,
    permanence_threshold := 0, permanence_increment := 1/4, permanence_decrement := 1/8,
    stimulus_threshold := 0, period := 1, min_overlap_duty_cycle := -1 }

/-- The layer `layerC8` reaches after one call on `[true]`. -/
def layerC8after : HTMLayer :=
  ((layerC8.spatial_pooling_output [true]).map Prod.snd).getD default

/-- Six synapse-less columns with inhibition radius 2, for the neighborhood
claims. -/
def layerC9 : HTMLayer :=
  { input_length := 1, num_active_columns_per_inhibition_area := 1,
    inhibition_radius := 2,
    columns := [⟨[], 1, 0, 0⟩, ⟨[], 1, 0, 0⟩, ⟨[], 1, 0, 0⟩, ⟨[], 1, 0, 0⟩,
                ⟨[], 1, 0, 0⟩, ⟨[], 1, 0, 0⟩],
    potential_radius := 0,
    permanence_threshold := 0, permanence_increment := 1/4, permanence_decrement := 1/8,
    stimulus_threshold := 0, period := 1, min_overlap_duty_cycle := -1 }

/-- Five columns with overlaps (5, 1, 1, 5, 0) on the input `[true]`:
columns 0 and 3 both win against their own neighborhoods. -/
def layerC10 : HTMLayer :=
  { input_length := 1, num_active_columns_per_inhibition_area := 1,
    inhibition_radius := 2,
    columns :=
      [⟨[(0, 1/2), (0, 1/2), (0, 1/2), (0, 1/2), (0, 1/2)], 1, 0, 0⟩,
       ⟨[(0, 1/2)], 1, 0, 0⟩,
       ⟨[(0, 1/2)], 1, 0, 0⟩,
       ⟨[(0, 1/2), (0, 1/2), (0, 1/2), (0, 1/2), (0, 1/2)], 1, 0, 0⟩,
       ⟨[], 1, 0, 0⟩],
    potential_radius := 0,
    permanence_threshold := 0, permanence_increment := 1/4, permanence_decrement := 1/8,
    stimulus_threshold := 0, period := 1, min_overlap_duty_cycle := -1 }

/-- The layer `layerC10` reaches after one call on `[true]`. -/
def layerC10after : HTMLayer :=
  ((layerC10.spatial_pooling_output [true]).map Prod.snd).getD default

/-! ## Helper lemmas -/

theorem mapOpt_length {α β : Type} {f : α → Option β} {l : List α} {ys : List β}
    (h : mapOpt f l = some ys) : ys.length = l.length := by
  induction l generalizing ys with
  | nil =>
    simp only [mapOpt, Option.some.injEq] at h
    subst h; rfl
  | cons a l ih =>
    simp only [mapOpt] at h
    rcases hfa : f a with _ | b <;> rw [hfa] at h
    · exact absurd h (by simp)
    rcases hml : mapOpt f l with _ | bs <;> rw [hml] at h
    · exact absurd h (by simp)
    obtain rfl : b :: bs = ys := by simpa using h
    simp [ih hml]

theorem mapOpt_getD {α β : Type} {f : α → Option β} {l : List α} {ys : List β}
    (h : mapOpt f l = some ys) (i : ℕ) (hi : i < l.length) (da : α) (db : β) :
    f (l.getD i da) = some (ys.getD i db) := by
  induction l generalizing ys i with
  | nil => exact absurd hi (by simp)
  | cons a l ih =>
    simp only [mapOpt] at h
    rcases hfa : f a with _ | b <;> rw [hfa] at h
    · exact absurd h (by simp)
    rcases hml : mapOpt f l with _ | bs <;> rw [hml] at h
    · exact absurd h (by simp)
    obtain rfl : b :: bs = ys := by simpa using h
    cases i with
    | zero => simpa using hfa
    | succ i => exact ih hml i (by simpa using hi)

theorem length_mapWithIndex {α β : Type} (f : ℕ → α → β) :
    ∀ (i0 : ℕ) (l : List α), (mapWithIndex f i0 l).length = l.length := by
  intro i0 l
  induction l generalizing i0 with
  | nil => rfl
  | cons a l ih => simp [mapWithIndex, ih]

theorem getD_mapWithIndex {α β : Type} (f : ℕ → α → β) (l : List α) (i0 i : ℕ)
    (hi : i < l.length) (da : α) (db : β) :
    (mapWithIndex f i0 l).getD i db = f (i0 + i) (l.getD i da) := by
  induction l generalizing i0 i with
  | nil => exact absurd hi (by simp)
  | cons a l ih =>
    cases i with
    | zero => simp [mapWithIndex]
    | succ i =>
      have := ih (i0 + 1) i (by simpa using hi)
      simpa [mapWithIndex, Nat.add_assoc, Nat.add_comm 1 i] using this

theorem forall_mem_mapWithIndex {α β : Type} {P : β → Prop} {Q : α → Prop}
    {f : ℕ → α → β} (hf : ∀ n a, Q a → P (f n a)) :
    ∀ (i0 : ℕ) (l : List α), (∀ a ∈ l, Q a) → ∀ y ∈ mapWithIndex f i0 l, P y := by
  intro i0 l
  induction l generalizing i0 with
  | nil => intro _ y hy; simp [mapWithIndex] at hy
  | cons a l ih =>
    intro hl y hy
    simp only [mapWithIndex, List.mem_cons] at hy
    rcases hy with rfl | hy
    · exact hf i0 a (hl a (by simp))
    · exact ih (i0 + 1) (fun b hb => hl b (by simp [hb])) y hy

theorem forall_mem_mapWithIndex_of {α β : Type} {P : β → Prop} {Q : α → Prop}
    {f : ℕ → α → β} {i0 : ℕ} {l : List α} (hl : ∀ a ∈ l, Q a)
    (hf : ∀ n a, Q a → P (f n a)) : ∀ y ∈ mapWithIndex f i0 l, P y :=
  forall_mem_mapWithIndex hf i0 l hl

theorem map_mapWithIndex {α γ : Type} {g : α → γ} {f : ℕ → α → α}
    (hgf : ∀ n a, g (f n a) = g a) :
    ∀ (i0 : ℕ) (l : List α), (mapWithIndex f i0 l).map g = l.map g := by
  intro i0 l
  induction l generalizing i0 with
  | nil => rfl
  | cons a l ih => simp [mapWithIndex, hgf, ih]

theorem update_adc_synapses (L : HTMLayer) (acts : List Bool) :
    (L.update_active_duty_cycle acts).columns.map Column.connected_synapses =
      L.columns.map Column.connected_synapses := by
  unfold HTMLayer.update_active_duty_cycle
  apply map_mapWithIndex
  intro n a
  rfl

theorem update_odc_synapses (L : HTMLayer) (ov : List ℚ) :
    (L.update_overlap_duty_cycle ov).columns.map Column.connected_synapses =
      L.columns.map Column.connected_synapses := by
  unfold HTMLayer.update_overlap_duty_cycle
  apply map_mapWithIndex
  intro n a
  rfl

theorem boost_and_rescue_synapses (L : HTMLayer) :
    (boost_and_rescue L).columns.map Column.connected_synapses =
      L.columns.map Column.connected_synapses := by
  unfold boost_and_rescue
  apply map_mapWithIndex
  intro n a
  rfl

theorem learning_synapses (L : HTMLayer) (acts : List Bool) (ov : List ℚ) :
    (L.spatial_pooling_learning acts ov).columns.map Column.connected_synapses =
      L.columns.map Column.connected_synapses := by
  unfold HTMLayer.spatial_pooling_learning
  rw [boost_and_rescue_synapses, update_odc_synapses, update_adc_synapses]

theorem output_eq_some {L L' : HTMLayer} {input out : List Bool}
    (h : L.spatial_pooling_output input = some (out, L')) :
    ∃ ov, overlapVec L input = some ov ∧ activeColumns L ov = some out ∧
      L' = L.spatial_pooling_learning out ov := by
  unfold HTMLayer.spatial_pooling_output at h
  rcases hov : overlapVec L input with _ | ov <;> rw [hov] at h
  · exact absurd h (by simp)
  simp only [Option.some_bind] at h
  rcases hact : activeColumns L ov with _ | acts <;> rw [hact] at h
  · exact absurd h (by simp)
  simp only [Option.map_some', Option.some.injEq] at h
  obtain ⟨h1, h2⟩ : acts = out ∧ L.spatial_pooling_learning acts ov = L' :=
    ⟨congrArg Prod.fst h, congrArg Prod.snd h⟩
  subst h1
  exact ⟨ov, rfl, hact, h2.symm⟩

theorem output_synapses {L L' : HTMLayer} {input : List Bool} {out : List Bool}
    (h : L.spatial_pooling_output input = some (out, L')) :
    L'.columns.map Column.connected_synapses = L.columns.map Column.connected_synapses := by
  obtain ⟨ov, -, -, rfl⟩ := output_eq_some h
  exact learning_synapses L out ov

/-! ## Claim theorems -/

/-- C2: for every call to `spatial_pooling_output`, on any input and any
pooler state, every column's `connected_synapses` list is identical before
and after the call — the Hebbian loop and the rescue loop both bind the
permanence by value and mutate only a local copy, so no stored
`(inputBitIndex, permanence)` pair changes. -/
theorem C2_synapses_unchanged (L L' : HTMLayer) (input out : List Bool)
    (h : L.spatial_pooling_output input = some (out, L')) :
    L'.columns.map Column.connected_synapses = L.columns.map Column.connected_synapses :=
  output_synapses h

/-- C6 (amended): `spatial_pooling_output` never consults the configured
`input_length`, so a call with a mismatched input vector is not rejected:
the observable behaviour (active columns and resulting column states) is
the same for every value of the `input_length` field. -/
theorem C6_amended_input_length_ignored (L : HTMLayer) (n : ℕ) (input : List Bool) :
    (({ L with input_length := n } : HTMLayer).spatial_pooling_output input).map
        (fun r => (r.1, r.2.columns)) =
      (L.spatial_pooling_output input).map (fun r => (r.1, r.2.columns)) := by
  have hov : overlapVec { L with input_length := n } input = overlapVec L input := rfl
  unfold HTMLayer.spatial_pooling_output
  rw [hov]
  rcases overlapVec L input with _ | ov
  · rfl
  have hact : activeColumns { L with input_length := n } ov = activeColumns L ov := rfl
  simp only [Option.some_bind]
  rw [hact]
  rcases activeColumns L ov with _ | acts
  · rfl
  simp only [Option.map_some']
  rfl

/-- C5 (amended): construction fails (the `assert!`, modelled as `none`, plus
the conditions the Rust type system enforces: a non-zero period and a
non-zero column count) exactly when `inhibitionRadius ≤ k` or `period = 0`
or `COLUMNS = 0`; no constraint relating `potentialPoolSize` and
`inputLength` is ever checked. -/
theorem C5_amended_construction_failure_iff
    (C il k r pr : ℕ) (pt pinc pdec st : ℚ) (P : ℕ) (modc : ℚ) :
    (HTMLayer.new C il k r pr pt pinc pdec st P modc).isSome ↔
      (k < r ∧ 1 ≤ P ∧ 0 < C) := by
  unfold HTMLayer.new
  split_ifs with h <;> simp [h]

/-- C9 (amended): for `i < COLUMNS`, `j` is a neighbor of `i` iff `j ≠ i`
and `i - r ≤ j < min (i + r) (COLUMNS - 1)`: the right end of the interval
is *exclusive* — both `i + r` itself and, when the radius is truncated at
the array edge, the last column are left out. -/
theorem C9_amended_neighbors_mem (L : HTMLayer) (i j : ℕ) (hi : i < L.columns.length) :
    j ∈ L.neighbors i ↔
      j ≠ i ∧ i - L.inhibition_radius ≤ j ∧
        j < min (i + L.inhibition_radius) (L.columns.length - 1) := by
  unfold HTMLayer.neighbors
  simp only [List.mem_append, List.mem_range'_1]
  split_ifs <;> omega

/-! ### C4: range invariants on reachable states -/

theorem adc_step_bounds (P : ℕ) (a b : ℚ) (ha0 : 0 ≤ a) (ha1 : a ≤ 1)
    (hb0 : 0 ≤ b) (hb1 : b ≤ 1) :
    0 ≤ (a * ((P - 1 : ℕ) : ℚ) + b) / (P : ℚ) ∧
      (a * ((P - 1 : ℕ) : ℚ) + b) / (P : ℚ) ≤ 1 := by
  rcases P with _ | P'
  · norm_num
  · have hc : (0 : ℚ) ≤ (P' : ℚ) := by positivity
    have hP : (0 : ℚ) < ((P' + 1 : ℕ) : ℚ) := by positivity
    have hnum0 : 0 ≤ a * ((P' + 1 - 1 : ℕ) : ℚ) + b := by
      simp only [Nat.add_sub_cancel]
      nlinarith
    have hnum1 : a * ((P' + 1 - 1 : ℕ) : ℚ) + b ≤ ((P' + 1 : ℕ) : ℚ) := by
      simp only [Nat.add_sub_cancel]
      push_cast
      nlinarith
    exact ⟨div_nonneg hnum0 hP.le, (div_le_one hP).2 hnum1⟩

theorem unitInv_update_adc (L : HTMLayer) (acts : List Bool) (h : unitInv L) :
    unitInv (L.update_active_duty_cycle acts) := by
  unfold unitInv HTMLayer.update_active_duty_cycle
  refine forall_mem_mapWithIndex_of h ?_
  intro n c hc
  refine ⟨hc.1, ?_⟩
  exact adc_step_bounds L.period c.active_duty_cycle
    (if acts.getD n false then 1 else 0) hc.2.1 hc.2.2
    (by split_ifs <;> norm_num) (by split_ifs <;> norm_num)

theorem unitInv_update_odc (L : HTMLayer) (ov : List ℚ) (h : unitInv L) :
    unitInv (L.update_overlap_duty_cycle ov) := by
  unfold unitInv HTMLayer.update_overlap_duty_cycle
  refine forall_mem_mapWithIndex_of h ?_
  intro n c hc
  exact hc

theorem unitInv_boost_and_rescue (L : HTMLayer) (h : unitInv L) :
    unitInv (boost_and_rescue L) := by
  unfold unitInv boost_and_rescue
  refine forall_mem_mapWithIndex_of h ?_
  intro n c hc
  exact hc

theorem unitInv_learning (L : HTMLayer) (acts : List Bool) (ov : List ℚ)
    (h : unitInv L) : unitInv (L.spatial_pooling_learning acts ov) :=
  unitInv_boost_and_rescue _
    (unitInv_update_odc _ ov (unitInv_update_adc L acts h))

theorem unitInv_output {L L' : HTMLayer} {input out : List Bool}
    (h : L.spatial_pooling_output input = some (out, L')) (hinv : unitInv L) :
    unitInv L' := by
  obtain ⟨ov, -, -, rfl⟩ := output_eq_some h
  exact unitInv_learning L out ov hinv

theorem unitInv_new (C il k r pr : ℕ) (pt pinc pdec st : ℚ) (P : ℕ) (modc : ℚ)
    (L0 : HTMLayer)
    (h : HTMLayer.new C il k r pr pt pinc pdec st P modc = some L0) :
    unitInv L0 := by
  unfold HTMLayer.new at h
  split_ifs at h
  simp only [Option.some.injEq] at h
  subst h
  intro c hc
  simp only [List.mem_map] at hc
  obtain ⟨i, -, rfl⟩ := hc
  unfold mkColumn
  refine ⟨?_, le_refl 0, zero_le_one⟩
  intro s hs
  have hs2 := (List.of_mem_zip hs).2
  rw [List.eq_of_mem_replicate hs2]
  norm_num

theorem unitInv_runSeq {L0 L : HTMLayer} {inputs : List (List Bool)}
    (hrun : runSeq L0 inputs = some L) (h : unitInv L0) : unitInv L := by
  induction inputs generalizing L0 with
  | nil =>
    obtain rfl : L0 = L := by simpa [runSeq] using hrun
    exact h
  | cons input rest ih =>
    unfold runSeq at hrun
    rcases hout : L0.spatial_pooling_output input with _ | r <;> rw [hout] at hrun
    · exact absurd hrun (by simp)
    · exact ih hrun (unitInv_output (by rw [hout]) h)

/-- C4 (amended): for every pooler produced by `new` and every finite
sequence of compute calls, after each call every stored permanence lies in
`[0, 1]` (they are in fact never modified) and every column's *active* duty
cycle lies in `[0, 1]`.  The original claim's remaining conjuncts are false:
the overlap duty cycle averages raw boost-multiplied overlap scores and can
exceed 1, and boost (starting at 10) moves by ±1 per cycle with no floor,
so it is not bounded below by 0. -/
theorem C4_amended_permanences_and_adc_in_unit
    (C il k r pr : ℕ) (pt pinc pdec st : ℚ) (P : ℕ) (modc : ℚ)
    (L0 L : HTMLayer) (inputs : List (List Bool))
    (h0 : HTMLayer.new C il k r pr pt pinc pdec st P modc = some L0)
    (hrun : runSeq L0 inputs = some L) : unitInv L :=
  unitInv_runSeq hrun (unitInv_new C il k r pr pt pinc pdec st P modc L0 h0)

/-! ### C7: what a freshly built column actually looks like -/

theorem getD_columns_new (C il k r pr : ℕ) (pt pinc pdec st : ℚ) (P : ℕ) (modc : ℚ)
    (L : HTMLayer) (i : ℕ)
    (h : HTMLayer.new C il k r pr pt pinc pdec st P modc = some L) (hi : i < C) :
    L.columns.getD i default = mkColumn il (pr * il / C) i ∧
      L.potential_radius = pr * il / C := by
  unfold HTMLayer.new at h
  split_ifs at h
  simp only [Option.some.injEq] at h
  subst h
  refine ⟨?_, rfl⟩
  have hlen : i < ((List.range C).map (mkColumn il (pr * il / C))).length := by
    simpa using hi
  rw [List.getD_eq_getElem _ _ hlen, List.getElem_map, List.getElem_range]

/-- C7 (amended): immediately after a successful construction every column
has boost `10.0` (not `1.0`) and zero duty cycles, and its pool is fully
deterministic (no randomness is involved): empty for columns `i <
potential_radius` (the negative-to-`usize` cast empties the range), and for
the others exactly the consecutive input indices `0, …, potential_radius-1`,
each with permanence `0.5` — the same pool for every such column, with no
guarantee the indices lie below `input_length`.  The two `2^64` bounds say
the wrapped cast stays out of range, which holds for any parameters
representable in a real process. -/
theorem C7_amended_initial_columns
    (C il k r pr : ℕ) (pt pinc pdec st : ℚ) (P : ℕ) (modc : ℚ)
    (L : HTMLayer) (i : ℕ)
    (h : HTMLayer.new C il k r pr pt pinc pdec st P modc = some L) (hi : i < C)
    (hb1 : il + L.potential_radius < 2 ^ 64)
    (hb2 : C + 2 * L.potential_radius < 2 ^ 64) :
    initColumnSpec L i := by
  obtain ⟨hcol, hpr⟩ := getD_columns_new C il k r pr pt pinc pdec st P modc L i h hi
  rw [hpr] at hb1 hb2
  unfold initColumnSpec
  rw [hpr, hcol]
  set q := pr * il / C with hq
  unfold mkColumn poolMinIdx poolMaxIdx
  refine ⟨rfl, rfl, rfl, ?_, ?_⟩
  · intro hiq
    have hcond : (i : ℤ) - (q : ℤ) < 0 := by omega
    rw [if_pos hcond]
    have hzero : max (i + q) il - ((i : ℤ) - (q : ℤ) + 2 ^ 64).toNat = 0 := by omega
    rw [hzero]
    rfl
  · intro hqi
    have hcond : ¬ ((i : ℤ) - (q : ℤ) < 0) := by omega
    rw [if_neg hcond]
    have hmax : q ≤ max (i + q) il - 0 := by
      simp only [Nat.sub_zero]
      exact le_trans (Nat.le_add_left q i) (le_max_left _ _)
    have hlen : ((List.range' 0 (max (i + q) il - 0)).zip
        (List.replicate q (1 / 2 : ℚ))).length = q := by
      rw [List.length_zip, List.length_range', List.length_replicate]
      exact min_eq_right hmax
    refine ⟨hlen, ?_⟩
    intro j hj
    have hj' : j < ((List.range' 0 (max (i + q) il - 0)).zip
        (List.replicate q (1 / 2 : ℚ))).length := by rw [hlen]; exact hj
    rw [List.getD_eq_getElem _ _ hj', List.getElem_zip, List.getElem_range',
      List.getElem_replicate]
    simp

/-! ### C8: the inhibition threshold is the k-th largest positive score -/

theorem get?_eq_some_getD {α : Type} (l : List α) (i : ℕ) (d : α) (h : i < l.length) :
    l.get? i = some (l.getD i d) := by
  rw [List.getD_eq_getElem _ _ h, List.get?_eq_getElem?, List.getElem?_eq_getElem h]

theorem getD_reverse_of_lt {α : Type} (l : List α) (i : ℕ) (d : α) (h : i < l.length) :
    l.reverse.getD i d = l.getD (l.length - 1 - i) d := by
  have h1 : i < l.reverse.length := by simpa using h
  have h2 : l.length - 1 - i < l.length := by omega
  rw [List.getD_eq_getElem _ _ h1, List.getD_eq_getElem _ _ h2, List.getElem_reverse]

theorem sortDesc_eq_reverse_sortAsc (l : List ℚ) :
    l.insertionSort (fun a b => b ≤ a) = (l.insertionSort (fun a b => a ≤ b)).reverse := by
  haveI ht : IsTotal ℚ (fun a b : ℚ => b ≤ a) := ⟨fun a b => le_total b a⟩
  haveI htr : IsTrans ℚ (fun a b : ℚ => b ≤ a) := ⟨fun _ _ _ hab hbc => le_trans hbc hab⟩
  haveI has : IsAntisymm ℚ (fun a b : ℚ => b ≤ a) := ⟨fun a b h1 h2 => le_antisymm h2 h1⟩
  have hperm : List.Perm (l.insertionSort (fun a b : ℚ => b ≤ a))
      ((l.insertionSort (fun a b : ℚ => a ≤ b)).reverse) :=
    (List.perm_insertionSort _ l).trans
      ((List.perm_insertionSort (fun a b : ℚ => a ≤ b) l).symm.trans
        (List.reverse_perm _).symm)
  have hs1 : List.Sorted (fun a b : ℚ => b ≤ a) (l.insertionSort (fun a b : ℚ => b ≤ a)) :=
    List.sorted_insertionSort _ l
  have hs2 : List.Sorted (fun a b : ℚ => b ≤ a)
      (l.insertionSort (fun a b : ℚ => a ≤ b)).reverse :=
    List.pairwise_reverse.mpr
      (by simpa [flip] using List.sorted_insertionSort (fun a b : ℚ => a ≤ b) l)
  exact List.eq_of_perm_of_sorted hperm hs1 hs2

theorem min_local_activity_eq_spec (k : ℕ) (lo : List ℚ) (hk : 1 ≤ k) :
    min_local_activity k lo = some (specLocalThreshold k lo) := by
  unfold min_local_activity specLocalThreshold kthLargest
  rw [sortDesc_eq_reverse_sortAsc]
  set asc := lo.insertionSort (fun a b => a ≤ b) with hasc
  have hlasc : asc.length = lo.length := List.length_insertionSort _ _
  by_cases h0 : lo.length = 0
  · simp [h0]
  · have hpos : 0 < lo.length := Nat.pos_of_ne_zero h0
    by_cases hlt : lo.length < k
    · rw [if_neg h0, if_pos hlt, if_neg h0, if_pos hlt]
      rw [getD_reverse_of_lt asc (lo.length - 1) 0 (by omega)]
      have hidx : asc.length - 1 - (lo.length - 1) = 0 := by omega
      rw [hidx]
      exact get?_eq_some_getD asc 0 0 (by omega)
    · rw [if_neg h0, if_neg hlt, if_neg h0, if_neg hlt]
      have hkn : k ≤ lo.length := le_of_not_lt hlt
      have hidx : (max 0 ((lo.length : ℤ) - (k : ℤ))).toNat = lo.length - k := by omega
      rw [hidx]
      rw [getD_reverse_of_lt asc (k - 1) 0 (by omega)]
      have hidx2 : asc.length - 1 - (k - 1) = lo.length - k := by omega
      rw [hidx2]
      exact get?_eq_some_getD asc (lo.length - k) 0 (by omega)

/-- C8: a column is active iff its overlap strictly exceeds both the
stimulus threshold and the local threshold, where the local threshold is
the `k`-th largest strictly positive overlap of its neighborhood, the
smallest positive one when fewer than `k` are positive, and `0` when none
are positive (for `k ≥ 1`; with `k = 0` the program panics instead). -/
theorem C8_active_iff_thresholds
    {L L' : HTMLayer} {input out : List Bool} {ov : List ℚ} {i : ℕ}
    (h : L.spatial_pooling_output input = some (out, L'))
    (hov : overlapVec L input = some ov)
    (hi : i < L.columns.length)
    (hk : 1 ≤ L.num_active_columns_per_inhibition_area) :
    (out.getD i false = true ↔
      (L.stimulus_threshold < ov.getD i 0 ∧
        specLocalThreshold L.num_active_columns_per_inhibition_area
          (localOverlapOf L ov i) < ov.getD i 0)) := by
  obtain ⟨ov', hov', hact, -⟩ := output_eq_some h
  rw [hov] at hov'
  obtain rfl : ov = ov' := by injection hov'
  have hflag := mapOpt_getD hact i (by simpa using hi) 0 false
  have hrange : (List.range L.columns.length).getD i 0 = i := by
    rw [List.getD_eq_getElem _ _ (by simpa using hi), List.getElem_range]
  rw [hrange] at hflag
  unfold activeFlag at hflag
  rw [min_local_activity_eq_spec _ _ hk] at hflag
  simp only [Option.map_some', Option.some.injEq] at hflag
  rw [← hflag]
  simp

/-! ### C10: rank bound for active columns -/

theorem countP_gt_pivot_of_sorted (s : List ℚ) (hs : s.Sorted (fun a b : ℚ => a ≤ b))
    (i : ℕ) (hi : i < s.length) :
    s.countP (fun x => decide (s.getD i 0 < x)) ≤ s.length - 1 - i := by
  have hpivot : ∀ x ∈ s.take (i + 1), x ≤ s.getD i 0 := by
    intro x hx
    obtain ⟨j, hj, hxj⟩ := List.mem_iff_getElem.1 hx
    have hj' : j < i + 1 := lt_of_lt_of_le hj (by simp [List.length_take])
    have hjs : j < s.length := lt_of_lt_of_le hj (by simp [List.length_take])
    rw [List.getElem_take] at hxj
    rw [List.getD_eq_getElem _ _ hi, ← hxj]
    rcases Nat.lt_or_ge j i with hji | hji
    · exact List.pairwise_iff_getElem.1 hs j i hjs hi hji
    · have : j = i := by omega
      subst this
      exact le_refl _
  calc s.countP (fun x => decide (s.getD i 0 < x))
      = (s.take (i + 1) ++ s.drop (i + 1)).countP (fun x => decide (s.getD i 0 < x)) := by
        rw [List.take_append_drop]
    _ = (s.take (i + 1)).countP (fun x => decide (s.getD i 0 < x)) +
          (s.drop (i + 1)).countP (fun x => decide (s.getD i 0 < x)) :=
        List.countP_append _ _ _
    _ = 0 + (s.drop (i + 1)).countP (fun x => decide (s.getD i 0 < x)) := by
        rw [List.countP_eq_zero.2]
        intro x hx
        simpa using not_lt_of_le (hpivot x hx)
    _ ≤ 0 + (s.drop (i + 1)).length := by
        exact Nat.add_le_add_left (List.countP_le_length _) 0
    _ ≤ s.length - 1 - i := by
        rw [List.length_drop]
        omega

/-- C10 (amended): at most `k - 1` columns of an active column's *own*
neighborhood have overlap `≥` the active column's overlap, provided that
neighborhood has at least `k` strictly positive overlaps.  The original
per-neighborhood bound of `k` active columns is false (see the
counterexample): each column is inhibited against its own neighborhood, not
against a common one. -/
theorem C10_amended_active_rank_bound
    {L L' : HTMLayer} {input out : List Bool} {ov : List ℚ} {j : ℕ}
    (h : L.spatial_pooling_output input = some (out, L'))
    (hov : overlapVec L input = some ov)
    (hk : 1 ≤ L.num_active_columns_per_inhibition_area)
    (hj : j < L.columns.length)
    (hact : out.getD j false = true)
    (hn : L.num_active_columns_per_inhibition_area ≤ (localOverlapOf L ov j).length) :
    ((L.neighbors j).filter
        (fun l => decide (ov.getD j 0 ≤ ov.getD l 0))).length <
      L.num_active_columns_per_inhibition_area := by
  obtain ⟨ov', hov', hactive, -⟩ := output_eq_some h
  rw [hov] at hov'
  obtain rfl : ov = ov' := by injection hov'
  set k := L.num_active_columns_per_inhibition_area with hkdef
  set lo := localOverlapOf L ov j with hlo
  set asc := lo.insertionSort (fun a b => a ≤ b) with hascdef
  have hlasc : asc.length = lo.length := List.length_insertionSort _ _
  -- extract the winning comparison from the inhibition loop
  have hflag := mapOpt_getD hactive j (by simpa using hj) 0 false
  have hrange : (List.range L.columns.length).getD j 0 = j := by
    rw [List.getD_eq_getElem _ _ (by simpa using hj), List.getElem_range]
  rw [hrange] at hflag
  unfold activeFlag at hflag
  have hml : min_local_activity k lo = some (asc.getD (lo.length - k) 0) := by
    unfold min_local_activity
    rw [if_neg (by omega), if_neg (by omega)]
    have hidx : (max 0 ((lo.length : ℤ) - (k : ℤ))).toNat = lo.length - k := by omega
    rw [hidx]
    exact get?_eq_some_getD asc (lo.length - k) 0 (by omega)
  rw [hml] at hflag
  simp only [Option.map_some', Option.some.injEq] at hflag
  rw [hact] at hflag
  have hwin : asc.getD (lo.length - k) 0 < ov.getD j 0 :=
    (of_decide_eq_true hflag).2
  -- every element of the local overlap list is strictly positive
  have hpos : ∀ x ∈ lo, 0 < x := by
    intro x hx
    have := List.of_mem_filter hx
    simpa using this
  have hploc : lo.length - k < asc.length := by omega
  have hmpos : 0 < asc.getD (lo.length - k) 0 := by
    apply hpos
    rw [← List.mem_insertionSort (fun a b : ℚ => a ≤ b)]
    rw [List.getD_eq_getElem _ _ hploc]
    exact List.getElem_mem _
  -- count the neighbors whose overlap is at least the winner's
  rw [← List.countP_eq_length_filter]
  have step1 : (L.neighbors j).countP (fun l => decide (ov.getD j 0 ≤ ov.getD l 0)) =
      ((L.neighbors j).map (fun l => ov.getD l 0)).countP
        (fun x => decide (ov.getD j 0 ≤ x)) := by
    rw [List.countP_map]
    rfl
  have step2 : ((L.neighbors j).map (fun l => ov.getD l 0)).countP
        (fun x => decide (ov.getD j 0 ≤ x)) ≤
      lo.countP (fun x => decide (ov.getD j 0 ≤ x)) := by
    rw [hlo]
    unfold localOverlapOf
    rw [List.countP_filter]
    apply List.countP_mono_left
    intro x hx hle
    have hx0 : 0 < x := lt_of_lt_of_le (lt_trans hmpos hwin) (of_decide_eq_true hle)
    rw [hle, decide_eq_true hx0]
    rfl
  have step3 : lo.countP (fun x => decide (ov.getD j 0 ≤ x)) =
      asc.countP (fun x => decide (ov.getD j 0 ≤ x)) :=
    ((List.perm_insertionSort (fun a b : ℚ => a ≤ b) lo).symm).countP_eq _
  have step4 : asc.countP (fun x => decide (ov.getD j 0 ≤ x)) ≤
      asc.countP (fun x => decide (asc.getD (lo.length - k) 0 < x)) := by
    apply List.countP_mono_left
    intro x _ hle
    exact decide_eq_true (lt_of_lt_of_le hwin (of_decide_eq_true hle))
  have step5 : asc.countP (fun x => decide (asc.getD (lo.length - k) 0 < x)) ≤
      asc.length - 1 - (lo.length - k) :=
    countP_gt_pivot_of_sorted asc (List.sorted_insertionSort _ lo) (lo.length - k) hploc
  omega

section ConcreteEvaluations

attribute [local semireducible] Rat.add Rat.mul Rat.sub Rat.inv Rat.ofScientific

/-- C1 (code_bug): on `layerC1` with input `[true]`, column 0 is active and
its single synapse references input bit 0, which is ON; the claim demands
the stored permanence become `1/2 + permanenceIncrement`, but the Hebbian
loop never consults the input bit and binds the permanence by value, so the
stored permanence is still `1/2` after the call. -/
theorem C1_learning_never_writes_permanences :
    (layerC1.spatial_pooling_output [true]).map
        (fun r => (r.1.getD 0 false, r.2.columns.map Column.connected_synapses)) =
      some (true, [[(0, 1/2)], [], []]) ∧
    (1/2 : ℚ) + layerC1.permanence_increment ≠ 1/2 := by decide

/-- C3 (code_bug): on `layerC3` every column's overlap duty cycle
(`[1, 0, 0]` after the update) is below `min_overlap_duty_cycle = 100`, so
the rescue rule applies to every column; the claim demands every pool
permanence be raised by `permanenceIncrement = 1/4`, but the rescue loop
binds the permanence by value and the stored permanences are unchanged. -/
theorem C3_rescue_never_writes_permanences :
    (layerC3.spatial_pooling_output [true]).map
        (fun r => (r.2.columns.map Column.connected_synapses,
                   r.2.columns.map Column.overlap_duty_cycle)) =
      some ([[(0, 1/2)], [], []], [1, 0, 0]) ∧
    (∀ q ∈ [(1 : ℚ), 0, 0], q < layerC3.min_overlap_duty_cycle) ∧
    layerC3.permanence_increment ≠ 0 := by decide

/-- C2 witness: the synapse lists of `layerC2` survive one concrete call. -/
theorem C2_synapses_unchanged_witness :
    (layerC2.spatial_pooling_output [true, true]).map
        (fun r => r.2.columns.map Column.connected_synapses) =
      some (layerC2.columns.map Column.connected_synapses) := by
  rcases hres : layerC2.spatial_pooling_output [true, true] with _ | r
  · exact absurd hres (by decide)
  · rw [Option.map_some']
    exact congrArg some (C2_synapses_unchanged layerC2 r.2 [true, true] r.1 (by rw [hres]))

/-- C5 counterexample: a construction whose (rescaled or raw) potential pool
size exceeds `input_length = 1` still yields a pooler — the claimed
`potentialPoolSize ≤ inputLength` constraint is never checked. -/
theorem C5_counterexample_poolsize_unchecked :
    (HTMLayer.new 2 1 1 2 10 0 0 0 0 1 0).isSome = true ∧ 1 < 10 * 1 / 2 := by decide

/-- C6 counterexample: `layerC6` is configured with `input_length = 1`, yet
the call on the length-2 input `[true, false]` is not rejected: it returns
an output vector and mutates the state (column 0's overlap duty cycle goes
from 0 to 1). -/
theorem C6_counterexample_length_mismatch_accepted :
    (layerC6.spatial_pooling_output [true, false]).map
        (fun r => (r.1, r.2.columns.map Column.overlap_duty_cycle)) =
      some ([true, false, false], [1, 0, 0]) ∧
    layerC6.columns.map Column.overlap_duty_cycle = [0, 0, 0] ∧
    [true, false].length ≠ layerC6.input_length := by decide

/-- C4 counterexample: one compute call on a freshly constructed pooler
(`new 3 3 1 2 2 …`, period 1) drives column 2's overlap duty cycle to 20,
far outside `[0, 1]` — the duty-cycle range invariant is false. -/
theorem C4_counterexample_overlap_duty_cycle_exceeds_one :
    ((HTMLayer.new 3 3 1 2 2 0 (1/4) (1/8) 0 1 (-1)).bind
        (fun L => (L.spatial_pooling_output [true, true, true]).map
          (fun r => (r.2.columns.map Column.overlap_duty_cycle).getD 2 0))) =
      some 20 ∧ ¬((20 : ℚ) ≤ 1) := by decide

/-- C7 counterexample: `new 4 3 1 2 2 …` succeeds with a rescaled potential
radius of `2 * 3 / 4 = 1`, and column 0's pool is *empty* (the negative
`i32`-to-`usize` cast empties the index range), not of the configured pool
size; its boost is `10.0`, not the claimed `1.0`. -/
theorem C7_counterexample_boost_and_empty_pool :
    (HTMLayer.new 4 3 1 2 2 0 0 0 0 1 0).map
        (fun L => ((L.columns.getD 0 default).connected_synapses,
                   (L.columns.getD 0 default).boost, L.potential_radius)) =
      some ([], 10, 1) ∧ (10 : ℚ) ≠ 1 := by decide

/-- C9 counterexample: in a 6-column layer with inhibition radius 2, the
neighbors of column 1 are `[0, 2]` — index `3 = 1 + 2` lies in the claimed
closed interval `[i-r, i+r] ∩ [0, COLUMNS)` but is not a neighbor. -/
theorem C9_counterexample_right_end_excluded :
    layerC9.neighbors 1 = [0, 2] ∧ 1 + layerC9.inhibition_radius = 3 ∧
      (3 : ℕ) < layerC9.columns.length := by decide

/-- C9 witness: the membership characterization applied to column 1 and
candidate 3 of `layerC9`. -/
theorem C9_amended_witness :
    3 ∈ layerC9.neighbors 1 ↔
      3 ≠ 1 ∧ 1 - layerC9.inhibition_radius ≤ 3 ∧
        3 < min (1 + layerC9.inhibition_radius) (layerC9.columns.length - 1) :=
  C9_amended_neighbors_mem layerC9 1 3 (by decide)

/-- C10 counterexample: on `layerC10` (overlaps `[5, 1, 1, 5, 0]`, `k = 1`)
the neighborhood of column 2 is `[0, 1, 3]`, has three strictly positive
overlaps, yet two of its columns (0 and 3) are active in the same cycle —
more than `k`. -/
theorem C10_counterexample_two_active_in_neighborhood :
    overlapVec layerC10 [true] = some [5, 1, 1, 5, 0] ∧
    localOverlapOf layerC10 [5, 1, 1, 5, 0] 2 = [5, 1, 5] ∧
    layerC10.num_active_columns_per_inhibition_area = 1 ∧
    (layerC10.spatial_pooling_output [true]).map
        (fun r => ((layerC10.neighbors 2).filter (fun j => r.1.getD j false)).length) =
      some 2 := by decide

/-- C4 witness: the surviving range invariant, instantiated on the pooler
`new 3 3 1 2 2 …` after one concrete cycle. -/
theorem C4_amended_witness : unitInv layerC4after :=
  C4_amended_permanences_and_adc_in_unit 3 3 1 2 2 0 (1/4) (1/8) 0 1 (-1)
    layerC4 layerC4after [[true, true, true]] (by decide) (by decide)

/-- C7 witness: the amended description of a freshly built column,
instantiated at column 2 of `layerC7`. -/
theorem C7_amended_witness : initColumnSpec layerC7 2 :=
  C7_amended_initial_columns 3 3 1 2 2 0 (1/4) (1/8) 0 1 (-1) layerC7 2
    (by decide) (by decide) (by decide) (by decide)

/-- C8 witness: the activation condition, instantiated at column 1 of
`layerC8` (overlaps `[1, 2, 0]`, output `[false, true, false]`). -/
theorem C8_active_iff_thresholds_witness :
    ([false, true, false].getD 1 false = true ↔
      (layerC8.stimulus_threshold < ([1, 2, 0] : List ℚ).getD 1 0 ∧
        specLocalThreshold layerC8.num_active_columns_per_inhibition_area
          (localOverlapOf layerC8 [1, 2, 0] 1) < ([1, 2, 0] : List ℚ).getD 1 0)) :=
  @C8_active_iff_thresholds layerC8 layerC8after [true] [false, true, false]
    [1, 2, 0] 1 (by decide) (by decide) (by decide) (by decide)

/-- C10 witness: the rank bound, instantiated at the active column 0 of
`layerC10`. -/
theorem C10_amended_witness :
    ((layerC10.neighbors 0).filter
        (fun l => decide (([5, 1, 1, 5, 0] : List ℚ).getD 0 0 ≤
          ([5, 1, 1, 5, 0] : List ℚ).getD l 0))).length <
      layerC10.num_active_columns_per_inhibition_area :=
  @C10_amended_active_rank_bound layerC10 layerC10after [true]
    [true, false, false, true, false] [5, 1, 1, 5, 0] 0
    (by decide) (by decide) (by decide) (by decide) (by decide) (by decide)

end ConcreteEvaluations

end HTM

